import Mathlib

/-!
Verification of the fire particle system in `src/fire.rs` (learn-wgpu).

Embedding conventions:
* `f32` scalars are modelled by exact rationals `ℚ` (the spec's arithmetic
  claims are exact equalities, i.e. they describe the ideal arithmetic).
* The trigonometric functions and π used by `spawn_particle` have no exact
  rational counterpart; they are abstract parameters `sin cos : ℚ → ℚ`,
  `pi : ℚ` of the model (claims about velocities only concern the formula
  structure, which holds for any interpretation of `sin`, `cos`, `pi`).
* `rand::thread_rng` is modelled by an explicit stream `draws : ℕ → RandDraw`
  of the three raw `rng.random::<f32>()` samples consumed per spawned
  particle, each nominally in `[0, 1)`.
* The `while` loop in `FireSystem::update` is embedded with an explicit fuel
  argument; `spawnFuel` computes an upper bound on the number of iterations,
  which is sufficient whenever `spawn_rate > 0` (for `spawn_rate ≤ 0` the
  Rust loop itself would not terminate once entered, so no claim covers it).
* GPU calls in `render` are modelled as an emitted list of commands.
-/

/-- A 3-vector of rationals, modelling `[f32; 3]`. -/
abbrev Vec3 := ℚ × ℚ × ℚ

/-- CPU-side particle, from `struct Particle` in fire.rs. -/
structure Particle where
  position : Vec3
  velocity : Vec3
  life : ℚ
  size : ℚ
deriving DecidableEq, Repr

/-- GPU vertex record, from `struct FireParticleVertex` in fire.rs. -/
structure FireParticleVertex where
  position : Vec3
  size : ℚ
  life : ℚ
  corner : ℚ × ℚ
deriving DecidableEq, Repr

/-- The three raw `rng.random::<f32>()` samples drawn by one
`spawn_particle` call, in the order the source draws them. -/
structure RandDraw where
  angle_u : ℚ
  rotation_u : ℚ
  size_u : ℚ
deriving DecidableEq, Repr

/-- Ambient interpretation of the non-rational ingredients: trigonometric
functions, π, and the random stream (`draws k` is consumed by the k-th
`spawn_particle` call of an `update`). -/
structure Env where
  sin : ℚ → ℚ
  cos : ℚ → ℚ
  pi : ℚ
  draws : ℕ → RandDraw

/-- The mutable simulation state of `struct FireSystem` (CPU fields; the
GPU handles are modelled separately). Field defaults are those set in
`FireSystem::new`. -/
structure FireSystem where
  particles : List Particle
  origin : Vec3
  cone_angle : ℚ
  spawn_rate : ℚ
  accumulator : ℚ
  vertices : List FireParticleVertex

/-- The state `FireSystem::new` initialises: empty store, `cone_angle = 0.3`,
`spawn_rate = 50.0`, `accumulator = 0`, empty cached vertex list. -/
def initialSystem (origin : Vec3) : FireSystem :=
  { particles := []
    origin := origin
    cone_angle := 0.3
    spawn_rate := 50.0
    accumulator := 0
    vertices := [] }

/-- The closure body of `retain_mut` in `FireSystem::update`:
`position += velocity * dt`, `life += dt * 0.5`, `size += dt * 0.3`. -/
def integrateParticle (dt : ℚ) (p : Particle) : Particle :=
  { p with
    position := (p.position.1 + p.velocity.1 * dt,
                 p.position.2.1 + p.velocity.2.1 * dt,
                 p.position.2.2 + p.velocity.2.2 * dt)
    life := p.life + dt * 0.5
    size := p.size + dt * 0.3 }

/-- The particle built by `FireSystem::spawn_particle` from one random
draw `d`, given the system's `origin` and `cone_angle`. -/
def spawnedParticle (E : Env) (origin : Vec3) (cone_angle : ℚ) (d : RandDraw) :
    Particle :=
  let angle := d.angle_u * cone_angle
  let rotation := d.rotation_u * E.pi * 2.0
  let dir_x := E.sin angle * E.cos rotation
  let dir_y := 0.3 + E.sin angle * 0.2
  let dir_z := E.cos angle
  { position := origin
    velocity := (dir_x * 0.5, dir_y * 0.8, dir_z * 2.0)
    life := 0.0
    size := 0.1 + d.size_u * 0.1 }

/-- `FireSystem::spawn_particle`: pushes a freshly sampled particle
(consuming draw `k`) onto the store. -/
def spawn_particle (E : Env) (k : ℕ) (s : FireSystem) : FireSystem :=
  { s with particles :=
      s.particles ++ [spawnedParticle E s.origin s.cone_angle (E.draws k)] }

/-- One iteration body of the spawn loop in `FireSystem::update`:
`self.spawn_particle(); self.accumulator -= spawn_interval;`. -/
def spawnStep (E : Env) (spawn_interval : ℚ) (k : ℕ) (s : FireSystem) :
    FireSystem :=
  let s1 := spawn_particle E k s
  { s1 with accumulator := s1.accumulator - spawn_interval }

/-- The `while self.accumulator >= spawn_interval` loop of
`FireSystem::update`, with explicit fuel. `k` indexes the next random draw;
the second component counts the `spawn_particle` calls made. -/
def spawnLoop (E : Env) (spawn_interval : ℚ) :
    ℕ → ℕ → FireSystem → FireSystem × ℕ
  | 0, _, s => (s, 0)
  | fuel + 1, k, s =>
    if spawn_interval ≤ s.accumulator then
      let r := spawnLoop E spawn_interval fuel (k + 1) (spawnStep E spawn_interval k s)
      (r.1, r.2 + 1)
    else (s, 0)

/-- Fuel bound for `spawnLoop`: one more than the iteration count
`⌊accumulator / spawn_interval⌋` the loop performs when
`spawn_interval > 0` and `accumulator ≥ 0`. -/
def spawnFuel (accumulator spawn_interval : ℚ) : ℕ :=
  (Int.floor (accumulator / spawn_interval)).toNat + 1

/-- `FireSystem::update(dt)`: integrate and cull existing particles
(`retain_mut`), then add `dt` to the accumulator and run the spawn loop.
Returns the new state together with the number of particles spawned. -/
def updateSpawn (E : Env) (dt : ℚ) (s : FireSystem) : FireSystem × ℕ :=
  let culled :=
    (s.particles.map (integrateParticle dt)).filter
      (fun p => decide (p.life < 1.0))
  let acc := s.accumulator + dt
  let spawn_interval := 1.0 / s.spawn_rate
  spawnLoop E spawn_interval (spawnFuel acc spawn_interval) 0
    { s with particles := culled, accumulator := acc }

/-- `FireSystem::update(dt)`, state only. -/
def update (E : Env) (dt : ℚ) (s : FireSystem) : FireSystem :=
  (updateSpawn E dt s).1

/-- A sequence of `update` calls; the second component is the total number
of particles spawned across the sequence. -/
def runUpdates (E : Env) (dts : List ℚ) (s : FireSystem) : FireSystem × ℕ :=
  dts.foldl
    (fun r dt =>
      let u := updateSpawn E dt r.1
      (u.1, r.2 + u.2))
    (s, 0)

/-- The corner table of `FireSystem::prepare_vertices`. -/
def corners : List (ℚ × ℚ) :=
  [(-1.0, -1.0), (1.0, -1.0), (1.0, 1.0), (-1.0, -1.0), (1.0, 1.0), (-1.0, 1.0)]

/-- The inner loop of `FireSystem::prepare_vertices`: the six vertices
pushed for one particle, one per corner. -/
def particleQuad (p : Particle) : List FireParticleVertex :=
  corners.map fun c =>
    { position := p.position, size := p.size, life := p.life, corner := c }

/-- `FireSystem::prepare_vertices`: clears the cached vertex list and pushes,
for each particle in store order, one vertex per corner. -/
def prepare_vertices (s : FireSystem) : FireSystem :=
  { s with vertices := s.particles.flatMap particleQuad }

/-- The GPU-facing actions `FireSystem::render` can perform, in order. -/
inductive RenderCmd where
  | writeTimeBuffer (t : ℚ)
  | writeVertexBuffer (data : List FireParticleVertex)
  | setPipeline
  | setCameraBindGroup
  | setTimeBindGroup
  | setVertexBuffer
  | draw (vertexCount : ℕ)
deriving DecidableEq, Repr

/-- `FireSystem::render`: write the time uniform, rebuild the vertices, and
either return early (empty store) or upload and draw. Returns the new state
and the list of GPU commands issued. -/
def render (elapsed : ℚ) (s : FireSystem) : FireSystem × List RenderCmd :=
  let s1 := prepare_vertices s
  if s1.vertices.isEmpty then
    (s1, [RenderCmd.writeTimeBuffer elapsed])
  else
    (s1, [RenderCmd.writeTimeBuffer elapsed,
          RenderCmd.writeVertexBuffer s1.vertices,
          RenderCmd.setPipeline,
          RenderCmd.setCameraBindGroup,
          RenderCmd.setTimeBindGroup,
          RenderCmd.setVertexBuffer,
          RenderCmd.draw s1.vertices.length])

/-- Byte size of `FireParticleVertex` under `repr(C)`:
`[f32; 3]` + `f32` + `f32` + `[f32; 2]`, all 4-byte aligned, no padding. -/
def fireParticleVertexByteSize : ℕ := 4 * 3 + 4 + 4 + 4 * 2

/-- Byte size of the vertex buffer allocated in `FireSystem::new`
(fire.rs line 212): `size_of::<FireParticleVertex>() * 1024 * 4`. -/
def fireVertexBufferSize : ℕ := fireParticleVertexByteSize * 1024 * 4

/-- Every live particle has `0 ≤ life < 1`. -/
def lifeInvariant (s : FireSystem) : Prop :=
  ∀ p ∈ s.particles, 0 ≤ p.life ∧ p.life < 1

/-! ### Concrete instances used by the witnesses -/

/-- A trivial interpretation for sin, cos, π and the random stream. -/
def envZero : Env :=
  { sin := fun _ => 0
    cos := fun _ => 0
    pi := 3
    draws := fun _ => { angle_u := 1/2, rotation_u := 1/2, size_u := 1/2 } }

/-- A sample mid-life particle. -/
def sampleParticle : Particle :=
  { position := (0, 0, 0), velocity := (1, 2, 3), life := 1/2, size := 1/10 }

/-- A sample system holding one live particle. -/
def sampleSystem : FireSystem :=
  { particles := [sampleParticle]
    origin := (0, 0, 0)
    cone_angle := 0.3
    spawn_rate := 50.0
    accumulator := 0
    vertices := [] }

/-- The particle of the C8 scenario: `life = 0.99`. -/
def agingParticle : Particle :=
  { position := (0, 0, 0), velocity := (0, 0, 0), life := 0.99, size := 0.1 }

/-- A system holding only the C8 scenario particle. -/
def agingSystem : FireSystem :=
  { particles := [agingParticle]
    origin := (0, 0, 0)
    cone_angle := 0.3
    spawn_rate := 50.0
    accumulator := 0
    vertices := [] }

/-! ### Helper lemmas about the spawn loop -/

lemma spawnStep_accumulator (E : Env) (i : ℚ) (k : ℕ) (s : FireSystem) :
    (spawnStep E i k s).accumulator = s.accumulator - i := rfl

lemma spawnStep_particles (E : Env) (i : ℚ) (k : ℕ) (s : FireSystem) :
    (spawnStep E i k s).particles
      = s.particles ++ [spawnedParticle E s.origin s.cone_angle (E.draws k)] := rfl

lemma spawnLoop_zero (E : Env) (i : ℚ) (k : ℕ) (s : FireSystem) :
    spawnLoop E i 0 k s = (s, 0) := rfl

lemma spawnLoop_succ_of_le {i : ℚ} {s : FireSystem} (E : Env) (fuel k : ℕ)
    (h : i ≤ s.accumulator) :
    spawnLoop E i (fuel + 1) k s
      = ((spawnLoop E i fuel (k + 1) (spawnStep E i k s)).1,
         (spawnLoop E i fuel (k + 1) (spawnStep E i k s)).2 + 1) := by
  simp [spawnLoop, h]

lemma spawnLoop_succ_of_lt {i : ℚ} {s : FireSystem} (E : Env) (fuel k : ℕ)
    (h : ¬ i ≤ s.accumulator) :
    spawnLoop E i (fuel + 1) k s = (s, 0) := by
  simp [spawnLoop, h]

/-- Splitting off the head of a shifted `List.range` map. -/
lemma map_range_add_one {α : Type _} (f : ℕ → α) (c k : ℕ) :
    (List.range (c + 1)).map (fun j => f (k + j))
      = f k :: (List.range c).map (fun j => f (k + 1 + j)) := by
  rw [List.range_succ_eq_map, List.map_cons, List.map_map]
  congr 1
  apply List.map_congr_left
  intro a _
  show f (k + Nat.succ a) = f (k + 1 + a)
  congr 1
  omega

/-- The spawn loop appends exactly the spawned particles (one per iteration,
consuming consecutive draws) and leaves every other field untouched. -/
lemma spawnLoop_particles (E : Env) (i : ℚ) :
    ∀ fuel k s,
      (spawnLoop E i fuel k s).1.particles
          = s.particles ++ (List.range (spawnLoop E i fuel k s).2).map
              (fun j => spawnedParticle E s.origin s.cone_angle (E.draws (k + j)))
        ∧ (spawnLoop E i fuel k s).1.origin = s.origin
        ∧ (spawnLoop E i fuel k s).1.cone_angle = s.cone_angle
        ∧ (spawnLoop E i fuel k s).1.spawn_rate = s.spawn_rate
        ∧ (spawnLoop E i fuel k s).1.vertices = s.vertices := by
  intro fuel
  induction fuel with
  | zero => intro k s; simp [spawnLoop_zero]
  | succ fuel ih =>
    intro k s
    by_cases h : i ≤ s.accumulator
    · obtain ⟨hp, ho, hc, hr, hv⟩ := ih (k + 1) (spawnStep E i k s)
      rw [spawnLoop_succ_of_le E fuel k h]
      dsimp only
      refine ⟨?_, ho, hc, hr, hv⟩
      rw [hp, spawnStep_particles]
      rw [show (spawnStep E i k s).origin = s.origin from rfl,
          show (spawnStep E i k s).cone_angle = s.cone_angle from rfl]
      rw [map_range_add_one
        (fun n => spawnedParticle E s.origin s.cone_angle (E.draws n))
        ((spawnLoop E i fuel (k + 1) (spawnStep E i k s)).2) k]
      simp [List.append_assoc]
    · rw [spawnLoop_succ_of_lt E fuel k h]
      simp

/-- Accumulator bookkeeping: each iteration subtracts `spawn_interval`. -/
lemma spawnLoop_accumulator (E : Env) (i : ℚ) :
    ∀ fuel k s,
      (spawnLoop E i fuel k s).1.accumulator
        = s.accumulator - ((spawnLoop E i fuel k s).2 : ℚ) * i := by
  intro fuel
  induction fuel with
  | zero => intro k s; simp [spawnLoop_zero]
  | succ fuel ih =>
    intro k s
    by_cases h : i ≤ s.accumulator
    · rw [spawnLoop_succ_of_le E fuel k h]
      dsimp only
      rw [ih (k + 1) (spawnStep E i k s), spawnStep_accumulator]
      push_cast
      ring
    · rw [spawnLoop_succ_of_lt E fuel k h]
      simp

/-- With positive interval, a non-negative accumulator and enough fuel, the
loop iterates exactly `⌊accumulator / spawn_interval⌋` times. -/
lemma spawnLoop_count (E : Env) {i : ℚ} (hi : 0 < i) :
    ∀ fuel k s, 0 ≤ s.accumulator →
      (Int.floor (s.accumulator / i)).toNat ≤ fuel →
      ((spawnLoop E i fuel k s).2 : ℤ) = Int.floor (s.accumulator / i) := by
  intro fuel
  induction fuel with
  | zero =>
    intro k s ha hfuel
    have h0 : 0 ≤ Int.floor (s.accumulator / i) :=
      Int.floor_nonneg.mpr (div_nonneg ha hi.le)
    have : Int.floor (s.accumulator / i) = 0 := by omega
    simp [spawnLoop_zero, this]
  | succ fuel ih =>
    intro k s ha hfuel
    by_cases h : i ≤ s.accumulator
    · have hne : i ≠ 0 := hi.ne'
      have hdiv : (s.accumulator - i) / i = s.accumulator / i - 1 := by
        field_simp
      have hfloor : Int.floor ((s.accumulator - i) / i)
          = Int.floor (s.accumulator / i) - 1 := by
        rw [hdiv, Int.floor_sub_one]
      have hge1 : 1 ≤ Int.floor (s.accumulator / i) := by
        have hone : (1 : ℚ) ≤ s.accumulator / i := (one_le_div hi).mpr h
        exact Int.le_floor.mpr (by exact_mod_cast hone)
      have hrec := ih (k + 1) (spawnStep E i k s)
        (by rw [spawnStep_accumulator]; exact sub_nonneg.mpr h)
        (by rw [spawnStep_accumulator, hfloor]; omega)
      rw [spawnLoop_succ_of_le E fuel k h]
      dsimp only
      push_cast
      rw [hrec, spawnStep_accumulator, hfloor]
      ring
    · rw [spawnLoop_succ_of_lt E fuel k h]
      have hlt : s.accumulator / i < 1 := (div_lt_one hi).mpr (lt_of_not_le h)
      have h0 : Int.floor (s.accumulator / i) = 0 := by
        rw [Int.floor_eq_zero_iff]
        exact ⟨div_nonneg ha hi.le, hlt⟩
      simp [h0]

/-- Every particle in the loop's output was already present or is freshly
spawned with `life = 0`. -/
lemma spawnLoop_mem (E : Env) (i : ℚ) (fuel k : ℕ) (s : FireSystem)
    (q : Particle) (hq : q ∈ (spawnLoop E i fuel k s).1.particles) :
    q ∈ s.particles ∨ q.life = 0 := by
  obtain ⟨hp, -⟩ := spawnLoop_particles E i fuel k s
  rw [hp] at hq
  rcases List.mem_append.mp hq with h | h
  · exact Or.inl h
  · obtain ⟨j, -, hj⟩ := List.mem_map.mp h
    right
    rw [← hj]
    norm_num [spawnedParticle]

/-! ### Helper lemmas about `updateSpawn` -/

/-- `update` first integrates and culls, then appends the spawned particles
(in draw order, sampled at the system's origin and cone angle). -/
lemma updateSpawn_particles (E : Env) (dt : ℚ) (s : FireSystem) :
    (updateSpawn E dt s).1.particles
      = ((s.particles.map (integrateParticle dt)).filter
            (fun p => decide (p.life < 1.0)))
        ++ (List.range (updateSpawn E dt s).2).map
            (fun j => spawnedParticle E s.origin s.cone_angle (E.draws j)) := by
  obtain ⟨hp, -, -, -, -⟩ := spawnLoop_particles E (1.0 / s.spawn_rate)
    (spawnFuel (s.accumulator + dt) (1.0 / s.spawn_rate)) 0
    { s with
      particles := (s.particles.map (integrateParticle dt)).filter
        (fun p => decide (p.life < 1.0)),
      accumulator := s.accumulator + dt }
  simp only [updateSpawn]
  rw [hp]
  simp

/-- `update` does not change origin, cone angle, spawn rate or the cached
vertex list. -/
lemma updateSpawn_fields (E : Env) (dt : ℚ) (s : FireSystem) :
    (updateSpawn E dt s).1.origin = s.origin
    ∧ (updateSpawn E dt s).1.cone_angle = s.cone_angle
    ∧ (updateSpawn E dt s).1.spawn_rate = s.spawn_rate
    ∧ (updateSpawn E dt s).1.vertices = s.vertices := by
  obtain ⟨-, ho, hc, hr, hv⟩ := spawnLoop_particles E (1.0 / s.spawn_rate)
    (spawnFuel (s.accumulator + dt) (1.0 / s.spawn_rate)) 0
    { s with
      particles := (s.particles.map (integrateParticle dt)).filter
        (fun p => decide (p.life < 1.0)),
      accumulator := s.accumulator + dt }
  simp only [updateSpawn]
  exact ⟨ho, hc, hr, hv⟩

/-- Accumulator after `update`: the pre-loop value minus one interval per
spawned particle. -/
lemma updateSpawn_accumulator (E : Env) (dt : ℚ) (s : FireSystem) :
    (updateSpawn E dt s).1.accumulator
      = s.accumulator + dt
        - ((updateSpawn E dt s).2 : ℚ) * (1.0 / s.spawn_rate) := by
  simp only [updateSpawn]
  rw [spawnLoop_accumulator]

/-- With a positive spawn rate and non-negative inputs, one `update` spawns
exactly `⌊(accumulator + dt) × spawn_rate⌋` particles. -/
lemma updateSpawn_count (E : Env) {dt : ℚ} {s : FireSystem}
    (hr : 0 < s.spawn_rate) (ha : 0 ≤ s.accumulator) (hdt : 0 ≤ dt) :
    ((updateSpawn E dt s).2 : ℤ)
      = Int.floor ((s.accumulator + dt) * s.spawn_rate) := by
  have hi : 0 < 1.0 / s.spawn_rate := by
    apply div_pos _ hr
    norm_num
  have hconv : (s.accumulator + dt) / (1.0 / s.spawn_rate)
      = (s.accumulator + dt) * s.spawn_rate := by
    rw [show (1.0 : ℚ) = 1 from by norm_num]
    field_simp
  have hcount := spawnLoop_count E hi
    (spawnFuel (s.accumulator + dt) (1.0 / s.spawn_rate)) 0
    { s with
      particles := (s.particles.map (integrateParticle dt)).filter
        (fun p => decide (p.life < 1.0)),
      accumulator := s.accumulator + dt }
    (by exact add_nonneg ha hdt)
    (by exact Nat.le_succ _)
  simp only [updateSpawn]
  rw [hcount, hconv]

/-- Generic floor bounds: subtracting `⌊a / i⌋` intervals from `a` lands in
`[0, i)`. -/
lemma floor_remainder_bounds {a i : ℚ} (hi : 0 < i) (_ha : 0 ≤ a) :
    0 ≤ a - (Int.floor (a / i) : ℚ) * i
    ∧ a - (Int.floor (a / i) : ℚ) * i < i := by
  constructor
  · have h := Int.floor_le (a / i)
    have hmul : (Int.floor (a / i) : ℚ) * i ≤ a / i * i :=
      mul_le_mul_of_nonneg_right h hi.le
    rw [div_mul_cancel₀ a hi.ne'] at hmul
    linarith
  · have h := Int.lt_floor_add_one (a / i)
    have hmul : a / i * i < ((Int.floor (a / i) : ℚ) + 1) * i :=
      mul_lt_mul_of_pos_right h hi
    rw [div_mul_cancel₀ a hi.ne'] at hmul
    have hexp : ((Int.floor (a / i) : ℚ) + 1) * i
        = (Int.floor (a / i) : ℚ) * i + i := by ring
    linarith [hexp ▸ hmul]

/-- After one `update` with positive rate and non-negative inputs, the
accumulator is in `[0, spawn_interval)`. -/
lemma updateSpawn_acc_bounds (E : Env) {dt : ℚ} {s : FireSystem}
    (hr : 0 < s.spawn_rate) (ha : 0 ≤ s.accumulator) (hdt : 0 ≤ dt) :
    0 ≤ (updateSpawn E dt s).1.accumulator
    ∧ (updateSpawn E dt s).1.accumulator < 1.0 / s.spawn_rate := by
  have hi : 0 < 1.0 / s.spawn_rate := by
    apply div_pos _ hr
    norm_num
  have hconv : (s.accumulator + dt) * s.spawn_rate
      = (s.accumulator + dt) / (1.0 / s.spawn_rate) := by
    rw [show (1.0 : ℚ) = 1 from by norm_num]
    field_simp
  have hacc := updateSpawn_accumulator E dt s
  have hcount := updateSpawn_count E hr ha hdt
  have hbounds := floor_remainder_bounds hi (add_nonneg ha hdt)
  have hrepr : (updateSpawn E dt s).1.accumulator
      = (s.accumulator + dt)
        - (Int.floor ((s.accumulator + dt) / (1.0 / s.spawn_rate)) : ℚ)
          * (1.0 / s.spawn_rate) := by
    rw [hacc]
    congr 1
    rw [show ((updateSpawn E dt s).2 : ℚ) = ((((updateSpawn E dt s).2 : ℤ)) : ℚ)
      from by push_cast; ring]
    rw [hcount, hconv]
  rw [hrepr]
  exact hbounds

/-! ### Helper lemmas for the vertex builder and update sequences -/

lemma particleQuad_length (p : Particle) : (particleQuad p).length = 6 := by
  simp [particleQuad, corners]

lemma flatMap_particleQuad_length :
    ∀ ps : List Particle, (ps.flatMap particleQuad).length = 6 * ps.length := by
  intro ps
  induction ps with
  | nil => simp
  | cons p ps ih =>
    rw [List.flatMap_cons, List.length_append, particleQuad_length, ih]
    simp
    ring

lemma flatMap_particleQuad_group :
    ∀ (ps : List Particle) (i : ℕ) (hi : i < ps.length),
      ((ps.flatMap particleQuad).drop (6 * i)).take 6
        = particleQuad (ps.get ⟨i, hi⟩) := by
  intro ps
  induction ps with
  | nil => intro i hi; simp at hi
  | cons p ps ih =>
    intro i hi
    cases i with
    | zero =>
      rw [List.flatMap_cons]
      simp only [Nat.mul_zero, List.drop_zero]
      rw [show (6 : ℕ) = (particleQuad p).length from (particleQuad_length p).symm,
        List.take_left]
      rfl
    | succ i =>
      rw [List.flatMap_cons]
      rw [show 6 * (i + 1) = (particleQuad p).length + 6 * i from by
        rw [particleQuad_length]; ring]
      rw [List.drop_append]
      rw [ih i (by simpa using Nat.lt_of_succ_lt_succ hi)]
      rw [List.get_cons_succ]

lemma runUpdates_shift (E : Env) :
    ∀ (dts : List ℚ) (s : FireSystem) (c : ℕ),
      dts.foldl
        (fun r dt =>
          let u := updateSpawn E dt r.1
          (u.1, r.2 + u.2))
        (s, c)
        = ((runUpdates E dts s).1, c + (runUpdates E dts s).2) := by
  intro dts
  induction dts with
  | nil => intro s c; simp [runUpdates]
  | cons dt dts ih =>
    intro s c
    simp only [runUpdates, List.foldl_cons]
    rw [ih, ih]
    simp [Nat.add_assoc]

lemma runUpdates_cons (E : Env) (dt : ℚ) (dts : List ℚ) (s : FireSystem) :
    runUpdates E (dt :: dts) s
      = ((runUpdates E dts (updateSpawn E dt s).1).1,
         (updateSpawn E dt s).2 + (runUpdates E dts (updateSpawn E dt s).1).2) := by
  simp only [runUpdates, List.foldl_cons]
  rw [runUpdates_shift]
  simp [runUpdates]

/-- Total spawn count over a sequence of updates: the accumulator carries
the fractional remainder exactly, so the total is
`⌊(accumulator₀ + ΣT) × spawn_rate⌋` regardless of how `T` is split. -/
lemma runUpdates_count (E : Env) :
    ∀ (dts : List ℚ) (s : FireSystem),
      0 < s.spawn_rate → 0 ≤ s.accumulator →
      s.accumulator < 1.0 / s.spawn_rate →
      (∀ dt ∈ dts, 0 ≤ dt) →
      ((runUpdates E dts s).2 : ℤ)
        = Int.floor ((s.accumulator + dts.sum) * s.spawn_rate) := by
  intro dts
  induction dts with
  | nil =>
    intro s hr ha hlt _
    have h1 : 0 ≤ s.accumulator * s.spawn_rate := mul_nonneg ha hr.le
    have h2 : s.accumulator * s.spawn_rate < 1 := by
      have hmul : s.accumulator * s.spawn_rate
          < 1.0 / s.spawn_rate * s.spawn_rate :=
        mul_lt_mul_of_pos_right hlt hr
      rw [div_mul_cancel₀ _ hr.ne'] at hmul
      linarith [hmul]
    have h0 : Int.floor ((s.accumulator + ([] : List ℚ).sum) * s.spawn_rate)
        = 0 := by
      rw [Int.floor_eq_zero_iff]
      constructor
      · simpa using h1
      · simpa using h2
    rw [h0]
    simp [runUpdates]
  | cons dt dts ih =>
    intro s hr ha hlt hdts
    have hmem : (0 : ℚ) ≤ dt := hdts dt (List.mem_cons_self dt dts)
    have hcount := updateSpawn_count E hr ha hmem
    have hfields := updateSpawn_fields E dt s
    have haccrep := updateSpawn_accumulator E dt s
    have hbounds := updateSpawn_acc_bounds E hr ha hmem
    have hr' : 0 < (updateSpawn E dt s).1.spawn_rate := by
      rw [hfields.2.2.1]; exact hr
    have hlt' : (updateSpawn E dt s).1.accumulator
        < 1.0 / (updateSpawn E dt s).1.spawn_rate := by
      rw [hfields.2.2.1]; exact hbounds.2
    have hrest : ∀ d ∈ dts, (0 : ℚ) ≤ d :=
      fun d hd => hdts d (List.mem_cons_of_mem dt hd)
    have hih := ih (updateSpawn E dt s).1 hr' hbounds.1 hlt' hrest
    rw [runUpdates_cons]
    dsimp only
    push_cast
    rw [hcount, hih, hfields.2.2.1, haccrep]
    have hinner : (s.accumulator + dt
          - ((updateSpawn E dt s).2 : ℚ) * (1.0 / s.spawn_rate)
          + dts.sum) * s.spawn_rate
        = (s.accumulator + (dt :: dts).sum) * s.spawn_rate
          - (((updateSpawn E dt s).2 : ℤ) : ℚ) := by
      rw [List.sum_cons, show (1.0 : ℚ) = 1 from by norm_num]
      field_simp
      ring
    rw [hinner, Int.floor_sub_int, hcount]
    omega

/-! ### Claims -/

/-- Claim C1: for every `dt ≥ 0` and every particle present before the call,
`update(dt)` adds `velocity*dt` to its position componentwise, increases its
life by exactly `dt*0.5` and its size by exactly `dt*0.3`, and the particle
remains in the store after the call if and only if its updated life
is `< 1.0`. -/
theorem claim_C1_integrate_and_cull (E : Env) (dt : ℚ) (s : FireSystem)
    (p : Particle) (_hdt : 0 ≤ dt) (hp : p ∈ s.particles) :
    (integrateParticle dt p).position
        = (p.position.1 + p.velocity.1 * dt,
           p.position.2.1 + p.velocity.2.1 * dt,
           p.position.2.2 + p.velocity.2.2 * dt)
    ∧ (integrateParticle dt p).life = p.life + dt * 0.5
    ∧ (integrateParticle dt p).size = p.size + dt * 0.3
    ∧ (integrateParticle dt p ∈ (update E dt s).particles
        ↔ (integrateParticle dt p).life < 1.0) := by
  have hdecomp : (update E dt s).particles
      = ((s.particles.map (integrateParticle dt)).filter
            (fun q => decide (q.life < 1.0)))
        ++ (List.range (updateSpawn E dt s).2).map
            (fun j => spawnedParticle E s.origin s.cone_angle (E.draws j)) :=
    updateSpawn_particles E dt s
  refine ⟨rfl, rfl, rfl, ?_⟩
  constructor
  · intro hmem
    rw [hdecomp] at hmem
    rcases List.mem_append.mp hmem with h | h
    · have := (List.mem_filter.mp h).2
      simpa using this
    · obtain ⟨j, -, hj⟩ := List.mem_map.mp h
      have hzero : (integrateParticle dt p).life = 0 := by
        rw [← hj]
        norm_num [spawnedParticle]
      rw [hzero]
      norm_num
  · intro hlife
    rw [hdecomp]
    apply List.mem_append_left
    apply List.mem_filter.mpr
    exact ⟨List.mem_map.mpr ⟨p, hp, rfl⟩, by simpa using hlife⟩

theorem claim_C1_integrate_and_cull_witness :
    (integrateParticle 1 sampleParticle).position
        = (sampleParticle.position.1 + sampleParticle.velocity.1 * 1,
           sampleParticle.position.2.1 + sampleParticle.velocity.2.1 * 1,
           sampleParticle.position.2.2 + sampleParticle.velocity.2.2 * 1)
    ∧ (integrateParticle 1 sampleParticle).life = sampleParticle.life + 1 * 0.5
    ∧ (integrateParticle 1 sampleParticle).size = sampleParticle.size + 1 * 0.3
    ∧ (integrateParticle 1 sampleParticle ∈ (update envZero 1 sampleSystem).particles
        ↔ (integrateParticle 1 sampleParticle).life < 1.0) :=
  claim_C1_integrate_and_cull envZero 1 sampleSystem sampleParticle
    (by norm_num) (by simp [sampleSystem])

/-- Claim C2: starting from `0 ≤ accumulator < 1/spawn_rate`, any finite
sequence of updates with non-negative `dt`s summing to `T` spawns exactly
`⌊(accumulator₀ + T) × spawn_rate⌋` particles, independent of the split. -/
theorem claim_C2_spawn_count_exact (E : Env) (s : FireSystem) (dts : List ℚ)
    (hr : 0 < s.spawn_rate) (ha : 0 ≤ s.accumulator)
    (hlt : s.accumulator < 1 / s.spawn_rate)
    (hdts : ∀ dt ∈ dts, 0 ≤ dt) :
    ((runUpdates E dts s).2 : ℤ)
      = Int.floor ((s.accumulator + dts.sum) * s.spawn_rate) :=
  runUpdates_count E dts s hr ha
    (by rw [show (1.0 : ℚ) = 1 from by norm_num]; exact hlt) hdts

theorem claim_C2_spawn_count_exact_witness :
    ((runUpdates envZero [1/100, 3/100] (initialSystem (0, 0, 0))).2 : ℤ)
      = Int.floor (((initialSystem (0, 0, 0)).accumulator
          + ([1/100, 3/100] : List ℚ).sum)
          * (initialSystem (0, 0, 0)).spawn_rate) :=
  claim_C2_spawn_count_exact envZero (initialSystem (0, 0, 0)) [1/100, 3/100]
    (by norm_num [initialSystem]) (by norm_num [initialSystem])
    (by norm_num [initialSystem])
    (by intro dt hdt; fin_cases hdt <;> norm_num)

/-- Claim C3 (code bug): `FireSystem::new` allocates
`size_of::<FireParticleVertex>() * 1024 * 4` bytes for the vertex buffer,
i.e. 4096 vertex slots (114688 bytes), although the comment promises room
for 1024 particles and each particle needs 6 vertices: the claimed size
`6 × 1024 × size_of(FireParticleVertex)` does not match the code. -/
theorem claim_C3_vertex_buffer_size :
    fireVertexBufferSize = 114688
    ∧ fireVertexBufferSize ≠ 6 * 1024 * fireParticleVertexByteSize
    ∧ fireVertexBufferSize < 6 * 1024 * fireParticleVertexByteSize := by
  refine ⟨rfl, by decide, by decide⟩

/-- Claim C5: every live particle satisfies `0 ≤ life < 1`: true of the
empty initial store and preserved by every `update(dt)` with `dt ≥ 0`. -/
theorem claim_C5_life_invariant :
    (∀ o : Vec3, lifeInvariant (initialSystem o))
    ∧ ∀ (E : Env) (dt : ℚ) (s : FireSystem), 0 ≤ dt → lifeInvariant s →
        lifeInvariant (update E dt s) := by
  constructor
  · intro o p hp
    simp [initialSystem] at hp
  · intro E dt s hdt hs q hq
    have hdecomp := updateSpawn_particles E dt s
    rw [show (update E dt s).particles = _ from hdecomp] at hq
    rcases List.mem_append.mp hq with h | h
    · obtain ⟨hmem, hlt⟩ := List.mem_filter.mp h
      obtain ⟨p, hp, hpq⟩ := List.mem_map.mp hmem
      constructor
      · rw [← hpq]
        have h1 := (hs p hp).1
        have h2 : 0 ≤ dt * 0.5 := mul_nonneg hdt (by norm_num)
        show 0 ≤ p.life + dt * 0.5
        linarith
      · have := of_decide_eq_true hlt
        norm_num at this
        exact this
    · obtain ⟨j, -, hj⟩ := List.mem_map.mp h
      rw [← hj]
      constructor <;> norm_num [spawnedParticle]

theorem claim_C5_life_invariant_witness :
    lifeInvariant (update envZero 1 (initialSystem (0, 0, 0))) :=
  claim_C5_life_invariant.2 envZero 1 (initialSystem (0, 0, 0))
    (by norm_num) (claim_C5_life_invariant.1 (0, 0, 0))

/-- Claim C6: after an `update(dt)` with `dt ≥ 0` from a state with a
positive spawn rate and a non-negative accumulator (as every reachable state
has), the accumulator lies in `[0, 1/spawn_rate)`. -/
theorem claim_C6_accumulator_drained (E : Env) (dt : ℚ) (s : FireSystem)
    (hr : 0 < s.spawn_rate) (ha : 0 ≤ s.accumulator) (hdt : 0 ≤ dt) :
    0 ≤ (update E dt s).accumulator
    ∧ (update E dt s).accumulator < 1 / s.spawn_rate := by
  have h := updateSpawn_acc_bounds E hr ha hdt
  refine ⟨h.1, ?_⟩
  have := h.2
  rw [show (1.0 : ℚ) = 1 from by norm_num] at this
  exact this

theorem claim_C6_accumulator_drained_witness :
    0 ≤ (update envZero 1 (initialSystem (0, 0, 0))).accumulator
    ∧ (update envZero 1 (initialSystem (0, 0, 0))).accumulator
        < 1 / (initialSystem (0, 0, 0)).spawn_rate :=
  claim_C6_accumulator_drained envZero 1 (initialSystem (0, 0, 0))
    (by norm_num [initialSystem]) (by norm_num [initialSystem]) (by norm_num)

/-- Claim C10: within one `update(dt)` call, integration and culling of the
pre-existing particles happen strictly before spawning; every particle
spawned in the call ends the call with `life = 0`, at the emitter origin,
with its sampled initial size — the call's `dt` is never applied to it, and
no particle spawned in the call is removed in the same call. -/
theorem claim_C10_spawn_after_integration (E : Env) (dt : ℚ) (s : FireSystem) :
    (update E dt s).particles
      = ((s.particles.map (integrateParticle dt)).filter
            (fun p => decide (p.life < 1.0)))
        ++ (List.range (updateSpawn E dt s).2).map
            (fun j => spawnedParticle E s.origin s.cone_angle (E.draws j))
    ∧ ∀ j : ℕ,
        (spawnedParticle E s.origin s.cone_angle (E.draws j)).life = 0
        ∧ (spawnedParticle E s.origin s.cone_angle (E.draws j)).position
            = s.origin
        ∧ (spawnedParticle E s.origin s.cone_angle (E.draws j)).size
            = 0.1 + (E.draws j).size_u * 0.1 := by
  refine ⟨updateSpawn_particles E dt s, ?_⟩
  intro j
  refine ⟨?_, rfl, rfl⟩
  norm_num [spawnedParticle]

/-- Claim C4: on a store of `n` live particles the vertex builder produces
exactly `6n` records; for each particle, in store order, the 6 consecutive
records carry its position, size and life unchanged with corner values
`(-1,-1),(1,-1),(1,1),(-1,-1),(1,1),(-1,1)` in that order; the store and
the other state fields are not mutated. -/
theorem claim_C4_vertex_builder (s : FireSystem) :
    (prepare_vertices s).vertices.length = 6 * s.particles.length
    ∧ (∀ (i : ℕ) (hi : i < s.particles.length),
        ((prepare_vertices s).vertices.drop (6 * i)).take 6
          = [{ position := (s.particles.get ⟨i, hi⟩).position,
               size := (s.particles.get ⟨i, hi⟩).size,
               life := (s.particles.get ⟨i, hi⟩).life, corner := (-1, -1) },
             { position := (s.particles.get ⟨i, hi⟩).position,
               size := (s.particles.get ⟨i, hi⟩).size,
               life := (s.particles.get ⟨i, hi⟩).life, corner := (1, -1) },
             { position := (s.particles.get ⟨i, hi⟩).position,
               size := (s.particles.get ⟨i, hi⟩).size,
               life := (s.particles.get ⟨i, hi⟩).life, corner := (1, 1) },
             { position := (s.particles.get ⟨i, hi⟩).position,
               size := (s.particles.get ⟨i, hi⟩).size,
               life := (s.particles.get ⟨i, hi⟩).life, corner := (-1, -1) },
             { position := (s.particles.get ⟨i, hi⟩).position,
               size := (s.particles.get ⟨i, hi⟩).size,
               life := (s.particles.get ⟨i, hi⟩).life, corner := (1, 1) },
             { position := (s.particles.get ⟨i, hi⟩).position,
               size := (s.particles.get ⟨i, hi⟩).size,
               life := (s.particles.get ⟨i, hi⟩).life, corner := (-1, 1) }])
    ∧ (prepare_vertices s).particles = s.particles
    ∧ (prepare_vertices s).origin = s.origin
    ∧ (prepare_vertices s).cone_angle = s.cone_angle
    ∧ (prepare_vertices s).spawn_rate = s.spawn_rate
    ∧ (prepare_vertices s).accumulator = s.accumulator := by
  refine ⟨flatMap_particleQuad_length s.particles, ?_, rfl, rfl, rfl, rfl, rfl⟩
  intro i hi
  show ((s.particles.flatMap particleQuad).drop (6 * i)).take 6 = _
  rw [flatMap_particleQuad_group s.particles i hi]
  norm_num [particleQuad, corners]

theorem claim_C4_vertex_builder_witness :
    0 < sampleSystem.particles.length
    ∧ ((prepare_vertices sampleSystem).vertices.drop (6 * 0)).take 6
        = [{ position := (0, 0, 0), size := 1/10, life := 1/2, corner := (-1, -1) },
           { position := (0, 0, 0), size := 1/10, life := 1/2, corner := (1, -1) },
           { position := (0, 0, 0), size := 1/10, life := 1/2, corner := (1, 1) },
           { position := (0, 0, 0), size := 1/10, life := 1/2, corner := (-1, -1) },
           { position := (0, 0, 0), size := 1/10, life := 1/2, corner := (1, 1) },
           { position := (0, 0, 0), size := 1/10, life := 1/2, corner := (-1, 1) }] := by
  have h0 : 0 < sampleSystem.particles.length := by simp [sampleSystem]
  refine ⟨h0, ?_⟩
  have h := (claim_C4_vertex_builder sampleSystem).2.1 0 h0
  simpa [sampleSystem, sampleParticle] using h

/-- Claim C7: with `spawn_rate = 50` and `cone_angle = 0.3`, one
`update(0.02)` on a fresh system yields exactly one new particle with
`life = 0`, `size ∈ [0.1, 0.2)`, sampled `angle ∈ [0, 0.3)` and
`rotation ∈ [0, 2π)`, and velocity components
`(0.5·sin(angle)·cos(rotation), 0.8·(0.3 + sin(angle)·0.2), 2·cos(angle))`. -/
theorem claim_C7_single_tick (E : Env) (o : Vec3)
    (ha0 : 0 ≤ (E.draws 0).angle_u) (ha1 : (E.draws 0).angle_u < 1)
    (hs0 : 0 ≤ (E.draws 0).size_u) (hs1 : (E.draws 0).size_u < 1)
    (hr0 : 0 ≤ (E.draws 0).rotation_u) (hr1 : (E.draws 0).rotation_u < 1)
    (hpi : 0 < E.pi) :
    (update E 0.02 (initialSystem o)).particles
        = [spawnedParticle E o 0.3 (E.draws 0)]
    ∧ (spawnedParticle E o 0.3 (E.draws 0)).life = 0
    ∧ 0.1 ≤ (spawnedParticle E o 0.3 (E.draws 0)).size
    ∧ (spawnedParticle E o 0.3 (E.draws 0)).size < 0.2
    ∧ 0 ≤ (E.draws 0).angle_u * 0.3
    ∧ (E.draws 0).angle_u * 0.3 < 0.3
    ∧ 0 ≤ (E.draws 0).rotation_u * E.pi * 2.0
    ∧ (E.draws 0).rotation_u * E.pi * 2.0 < 2 * E.pi
    ∧ (spawnedParticle E o 0.3 (E.draws 0)).velocity
        = (0.5 * (E.sin ((E.draws 0).angle_u * 0.3)
              * E.cos ((E.draws 0).rotation_u * E.pi * 2.0)),
           0.8 * (0.3 + E.sin ((E.draws 0).angle_u * 0.3) * 0.2),
           2.0 * E.cos ((E.draws 0).angle_u * 0.3)) := by
  have hcount : ((updateSpawn E 0.02 (initialSystem o)).2 : ℤ) = 1 := by
    rw [updateSpawn_count E (by norm_num [initialSystem])
      (by norm_num [initialSystem]) (by norm_num)]
    rw [show ((initialSystem o).accumulator + 0.02) * (initialSystem o).spawn_rate
      = 1 from by norm_num [initialSystem]]
    exact Int.floor_one
  have hcnt : (updateSpawn E 0.02 (initialSystem o)).2 = 1 := by
    exact_mod_cast hcount
  have hp := updateSpawn_particles E 0.02 (initialSystem o)
  rw [hcnt] at hp
  refine ⟨?_, by norm_num [spawnedParticle], ?_, ?_, ?_, ?_, ?_, ?_, ?_⟩
  · show (updateSpawn E 0.02 (initialSystem o)).1.particles = _
    rw [hp]
    simp [initialSystem, List.range_succ]
  · show (0.1 : ℚ) ≤ 0.1 + (E.draws 0).size_u * 0.1
    have := mul_nonneg hs0 (show (0:ℚ) ≤ 0.1 by norm_num)
    linarith
  · show (0.1 : ℚ) + (E.draws 0).size_u * 0.1 < 0.2
    have := mul_lt_mul_of_pos_right hs1 (show (0:ℚ) < 0.1 by norm_num)
    norm_num at this
    linarith
  · exact mul_nonneg ha0 (by norm_num)
  · have := mul_lt_mul_of_pos_right ha1 (show (0:ℚ) < 0.3 by norm_num)
    norm_num at this
    linarith
  · exact mul_nonneg (mul_nonneg hr0 hpi.le) (by norm_num)
  · nlinarith [mul_pos (sub_pos.mpr hr1) hpi]
  · simp only [spawnedParticle, Prod.mk.injEq]
    refine ⟨by ring, by ring, by ring⟩

theorem claim_C7_single_tick_witness :
    (update envZero 0.02 (initialSystem (0, 0, 0))).particles
        = [spawnedParticle envZero (0, 0, 0) 0.3 (envZero.draws 0)]
    ∧ (spawnedParticle envZero (0, 0, 0) 0.3 (envZero.draws 0)).life = 0
    ∧ 0.1 ≤ (spawnedParticle envZero (0, 0, 0) 0.3 (envZero.draws 0)).size
    ∧ (spawnedParticle envZero (0, 0, 0) 0.3 (envZero.draws 0)).size < 0.2
    ∧ 0 ≤ (envZero.draws 0).angle_u * 0.3
    ∧ (envZero.draws 0).angle_u * 0.3 < 0.3
    ∧ 0 ≤ (envZero.draws 0).rotation_u * envZero.pi * 2.0
    ∧ (envZero.draws 0).rotation_u * envZero.pi * 2.0 < 2 * envZero.pi
    ∧ (spawnedParticle envZero (0, 0, 0) 0.3 (envZero.draws 0)).velocity
        = (0.5 * (envZero.sin ((envZero.draws 0).angle_u * 0.3)
              * envZero.cos ((envZero.draws 0).rotation_u * envZero.pi * 2.0)),
           0.8 * (0.3 + envZero.sin ((envZero.draws 0).angle_u * 0.3) * 0.2),
           2.0 * envZero.cos ((envZero.draws 0).angle_u * 0.3)) :=
  claim_C7_single_tick envZero (0, 0, 0)
    (by norm_num [envZero]) (by norm_num [envZero])
    (by norm_num [envZero]) (by norm_num [envZero])
    (by norm_num [envZero]) (by norm_num [envZero])
    (by norm_num [envZero])

/-- Claim C8 counterexample: after integrating a `life = 0.99` particle with
`dt = 0.01` and then `dt = 0.02`, the life is `0.995 + 0.02 × 0.5 = 1.005`,
not `1.015` as the claim states. -/
theorem claim_C8_counterexample :
    (integrateParticle 0.02 (integrateParticle 0.01 agingParticle)).life
        = 1.005
    ∧ ¬ ((integrateParticle 0.02 (integrateParticle 0.01 agingParticle)).life
        = 1.015) := by
  constructor <;> norm_num [integrateParticle, agingParticle]

/-- Claim C8 (amended): a particle with `life = 0.99` updated with
`dt = 0.01` survives with `life = 0.995`; updated again with `dt = 0.02` its
life becomes `1.005` and it is removed from the store (only the particle the
second call spawns remains). -/
theorem claim_C8_aging_scenario (E : Env) :
    (update E 0.01 agingSystem).particles = [integrateParticle 0.01 agingParticle]
    ∧ (integrateParticle 0.01 agingParticle).life = 0.995
    ∧ (update E 0.02 (update E 0.01 agingSystem)).particles
        = [spawnedParticle E (0, 0, 0) 0.3 (E.draws 0)]
    ∧ (integrateParticle 0.02 (integrateParticle 0.01 agingParticle)).life
        = 1.005 := by
  have hlife1 : (integrateParticle 0.01 agingParticle).life = 0.995 := by
    norm_num [integrateParticle, agingParticle]
  have hc1 : ((updateSpawn E 0.01 agingSystem).2 : ℤ) = 0 := by
    rw [updateSpawn_count E (by norm_num [agingSystem])
      (by norm_num [agingSystem]) (by norm_num)]
    rw [show (agingSystem.accumulator + 0.01) * agingSystem.spawn_rate
      = 1/2 from by norm_num [agingSystem]]
    rw [Int.floor_eq_zero_iff]
    constructor <;> norm_num
  have hc1n : (updateSpawn E 0.01 agingSystem).2 = 0 := by exact_mod_cast hc1
  have hp1 := updateSpawn_particles E 0.01 agingSystem
  rw [hc1n] at hp1
  have hlt1 : (integrateParticle 0.01 agingParticle).life < 1.0 := by
    rw [hlife1]; norm_num
  have hpart1 : (update E 0.01 agingSystem).particles
      = [integrateParticle 0.01 agingParticle] := by
    show (updateSpawn E 0.01 agingSystem).1.particles = _
    rw [hp1]
    simp [agingSystem, hlt1]
  have hfields1 := updateSpawn_fields E 0.01 agingSystem
  have hrate1 : (update E 0.01 agingSystem).spawn_rate = 50.0 := by
    show (updateSpawn E 0.01 agingSystem).1.spawn_rate = 50.0
    rw [hfields1.2.2.1]
    rfl
  have horigin1 : (update E 0.01 agingSystem).origin = (0, 0, 0) := by
    show (updateSpawn E 0.01 agingSystem).1.origin = (0, 0, 0)
    rw [hfields1.1]
    rfl
  have hcone1 : (update E 0.01 agingSystem).cone_angle = 0.3 := by
    show (updateSpawn E 0.01 agingSystem).1.cone_angle = 0.3
    rw [hfields1.2.1]
    rfl
  have hacc1 : (update E 0.01 agingSystem).accumulator = 0.01 := by
    show (updateSpawn E 0.01 agingSystem).1.accumulator = 0.01
    rw [updateSpawn_accumulator E 0.01 agingSystem, hc1n]
    norm_num [agingSystem]
  have hc2 : ((updateSpawn E 0.02 (update E 0.01 agingSystem)).2 : ℤ) = 1 := by
    rw [updateSpawn_count E (by rw [hrate1]; norm_num)
      (by rw [hacc1]; norm_num) (by norm_num)]
    rw [hacc1, hrate1]
    rw [show ((0.01 : ℚ) + 0.02) * 50.0 = 3/2 from by norm_num]
    rw [Int.floor_eq_iff]
    constructor <;> norm_num
  have hc2n : (updateSpawn E 0.02 (update E 0.01 agingSystem)).2 = 1 := by
    exact_mod_cast hc2
  have hp2 := updateSpawn_particles E 0.02 (update E 0.01 agingSystem)
  rw [hc2n] at hp2
  have hnlt2 : ¬ ((integrateParticle 0.02 (integrateParticle 0.01 agingParticle)).life
      < 1.0) := by
    norm_num [integrateParticle, agingParticle]
  refine ⟨hpart1, hlife1, ?_, by norm_num [integrateParticle, agingParticle]⟩
  show (updateSpawn E 0.02 (update E 0.01 agingSystem)).1.particles = _
  rw [hp2, hpart1, horigin1, hcone1]
  simp [hnlt2, List.range_succ]

/-- Claim C9: on an empty store, `render` writes the time uniform, rebuilds
an empty vertex sequence and returns without uploading or drawing; a draw
command is only ever issued for a non-empty vertex sequence, over all its
vertices. -/
theorem claim_C9_empty_render (t : ℚ) (s : FireSystem)
    (h : s.particles = []) :
    (render t s).2 = [RenderCmd.writeTimeBuffer t]
    ∧ (render t s).1.vertices = []
    ∧ (∀ (u : ℚ) (s2 : FireSystem) (n : ℕ),
        RenderCmd.draw n ∈ (render u s2).2 →
        (prepare_vertices s2).vertices ≠ []
        ∧ n = (prepare_vertices s2).vertices.length) := by
  have hv : (prepare_vertices s).vertices = [] := by
    simp [prepare_vertices, h]
  refine ⟨?_, ?_, ?_⟩
  · simp [render, hv]
  · simp [render, hv]
  · intro u s2 n hmem
    cases hE : (prepare_vertices s2).vertices.isEmpty with
    | true => simp [render, hE] at hmem
    | false =>
      simp [render, hE] at hmem
      refine ⟨?_, hmem⟩
      intro hc
      rw [hc] at hE
      simp at hE

theorem claim_C9_empty_render_witness :
    (render 0 (initialSystem (0, 0, 0))).2 = [RenderCmd.writeTimeBuffer 0]
    ∧ (render 0 (initialSystem (0, 0, 0))).1.vertices = [] :=
  ⟨(claim_C9_empty_render 0 (initialSystem (0, 0, 0)) rfl).1,
   (claim_C9_empty_render 0 (initialSystem (0, 0, 0)) rfl).2.1⟩
